import Mathlib

/-!
Verification of the p2p-webrtc-node fragment-streaming subsystem.

The definitions below are a shallow embedding of the TypeScript sources:
the per-session fragment streamer (FileTransferManager), the peer-connection
manager (PeerConnectionManager), the telemetry sampler (StatsReporter), the
startup fragment verifier (SignalSocketController.verifyFragmentMap), the
delete command handler (CommandSocketController.handleDelete), and the IP
classifier (NetworkUtils.classifyIp).  Bytes are modelled as Nat, JS numbers
holding byte counts as Nat, JS floating-point ratios as Rat, buffers as
List Nat, and the event-driven stream callbacks as an explicit event list
folded over a state.
-/

namespace P2P

/-! ### Transfer status reports (RequestFragmentStatus in signal.socket.event.webrtc) -/

inductive RequestFragmentStatus where
  | STARTING
  | FILE_NOT_FOUND
  | DATA_CHANNEL_CLOSED
  | LOW_MEMORY
  | IN_PROGRESS
  | COMPLETED
  | FAILED
  | CANCELED
  deriving DecidableEq, Repr

/-! ### TransferSession (src/src/controllers/webrtc/types.ts) -/

inductive TransferStatus where
  | inProgress
  | completed
  | failed
  | canceled
  deriving DecidableEq, Repr

/-- Embedding of the TransferSession record of webrtc/types.ts.  The Date
fields (start, end) and speedBytesPerSec play no role in the claims and are
omitted; streamOpen models whether fileStream is live. -/
structure TransferSession where
  fragmentId : String
  status : TransferStatus
  error : Option String
  totalBytes : Nat
  sentBytes : Nat
  canceled : Bool
  streamOpen : Bool
  deriving DecidableEq, Repr

/-- State of one streaming run: the session record, whether the session is
still present in peerData.transferSessions (inMap), the binary frames sent on
the data channel so far, and the statuses reported to the signaling server. -/
structure RunState where
  session : TransferSession
  inMap : Bool
  frames : List (List Nat)
  reports : List RequestFragmentStatus
  deriving DecidableEq, Repr

/-- FileTransferManager.sendChunk, lines 325-351 of the source file: the frame
is a 2-byte header (byte 0 = idBuf.length, byte 1 = last-chunk flag) followed
by the session-id bytes and the chunk; the flag is 1 iff
sentBytes + chunk.length >= fileSize. -/
def sendChunkFrame (idBuf : List Nat) (sentBytes fileSize : Nat) (chunk : List Nat) : List Nat :=
  idBuf.length :: (if fileSize ≤ sentBytes + chunk.length then 1 else 0) :: idBuf ++ chunk

/-- The stream callbacks that drive one transfer, as events:
a data event carries the chunk and whether the back-pressure wait inside
handleFlowControl hit its deadline; streamEnd is the end callback of the
read stream; streamError the error callback; remoteCancel a CANCELED
control message routed to cancelTransfer. -/
inductive TEvent where
  | data (chunk : List Nat) (timedOut : Bool)
  | streamEnd
  | streamError (msg : String)
  | remoteCancel
  deriving DecidableEq, Repr

/-- One step of FileTransferManager.streamFile and its helpers.
The data branch mirrors the data callback: a canceled session is skipped;
a flow-control timeout (handleFlowControl lines 291-309) marks the session
canceled and failed with error "Transfer throttled too long" and removes it
from the map without reporting any status; otherwise sendChunk appends a
frame and adds the chunk length to sentBytes.  streamEnd mirrors
handleTransferComplete (skip when canceled, else mark completed, clean up,
report COMPLETED); streamError mirrors handleTransferError; remoteCancel
mirrors cancelTransfer (guarded on presence in the map and status
in-progress). -/
def stepEvent (idBuf : List Nat) (st : RunState) : TEvent → RunState
  | .data chunk timedOut =>
    if st.session.canceled then st
    else if timedOut then
      { st with
        session := { st.session with
          canceled := true
          status := .failed
          error := some "Transfer throttled too long"
          streamOpen := false }
        inMap := false }
    else
      { st with
        session := { st.session with sentBytes := st.session.sentBytes + chunk.length }
        frames := st.frames ++
          [sendChunkFrame idBuf st.session.sentBytes st.session.totalBytes chunk] }
  | .streamEnd =>
    if st.session.canceled then st
    else
      { st with
        session := { st.session with status := .completed, streamOpen := false }
        inMap := false
        reports := st.reports ++ [.COMPLETED] }
  | .streamError msg =>
    if st.session.canceled then st
    else
      { st with
        session := { st.session with status := .failed, error := some msg, streamOpen := false }
        inMap := false
        reports := st.reports ++ [.FAILED] }
  | .remoteCancel =>
    if st.inMap ∧ st.session.status = .inProgress then
      { st with
        session := { st.session with canceled := true, status := .canceled, streamOpen := false }
        inMap := false
        reports := st.reports ++ [.CANCELED] }
    else st

def runEvents (idBuf : List Nat) (st : RunState) (evts : List TEvent) : RunState :=
  evts.foldl (stepEvent idBuf) st

/-- The session as registered by startTransfer lines 122-135: status
in-progress, totalBytes = file size, sentBytes = 0. -/
def initRun (fragmentId : String) (fileSize : Nat) : RunState :=
  { session := { fragmentId := fragmentId, status := .inProgress, error := none,
                 totalBytes := fileSize, sentBytes := 0, canceled := false, streamOpen := true }
    inMap := true
    frames := []
    reports := [] }

/-! ### Script bookkeeping: properties of the event list that reflect the
fs.ReadStream contract (data events stop after end or error, end fires only
when the whole file has been delivered). -/

def sumData : List TEvent → Nat
  | [] => 0
  | .data c _ :: r => c.length + sumData r
  | _ :: r => sumData r

def hasEnded : List TEvent → Bool
  | [] => false
  | .streamEnd :: _ => true
  | .streamError _ :: _ => true
  | _ :: r => hasEnded r

def hasFin : List TEvent → Bool
  | [] => false
  | .streamEnd :: _ => true
  | _ :: r => hasFin r

/-- Well-formed stream scripts: once the stream has ended (end or error
callback fired), no further data, end or error events occur.  Remote cancel
messages may arrive at any time. -/
def scriptOk : Bool → List TEvent → Bool
  | _, [] => true
  | ended, .data _ _ :: r => !ended && scriptOk ended r
  | ended, .streamEnd :: r => !ended && scriptOk true r
  | ended, .streamError _ :: r => !ended && scriptOk true r
  | ended, .remoteCancel :: r => scriptOk ended r

/-- Master invariant of a streaming run.  T is the file size, d the number of
bytes delivered by the data events processed so far, ended whether the stream
has fired its end or error callback. -/
def RunInv (T : Nat) (st : RunState) (d : Nat) (ended : Bool) : Prop :=
  st.session.totalBytes = T ∧
  st.session.sentBytes ≤ d ∧
  (st.session.canceled = false → st.session.sentBytes = d) ∧
  (st.session.canceled = true →
    st.session.status = .failed ∨ st.session.status = .canceled) ∧
  ((st.session.status = .completed ∨ st.session.status = .failed) ∧
    st.session.canceled = false → ended = true) ∧
  (st.session.status = .completed → st.session.canceled = false ∧ st.session.sentBytes = T) ∧
  (ended = true → st.session.status ≠ .inProgress) ∧
  (st.session.status = .canceled → st.session.canceled = true)

/-! ### The frame sequence of an uninterrupted transfer (claim C1). -/

/-- The frames sendChunk produces for a list of chunks, starting from a given
sentBytes counter.  This is the unfolding of the data callbacks of
streamFile over the chunks of the read stream. -/
def mkFrames (idBuf : List Nat) (fileSize : Nat) : Nat → List (List Nat) → List (List Nat)
  | _, [] => []
  | sent, c :: cs =>
    sendChunkFrame idBuf sent fileSize c :: mkFrames idBuf fileSize (sent + c.length) cs

/-! ### PeerConnectionManager (claims C3 and C5). -/

/-- The observable side effects of PeerConnectionManager.cleanup, in the
order the code can perform them.  The last three constructors never occur in
the trace of cleanup itself; they are listed so their absence can be stated. -/
inductive CleanupAction where
  | clearInactivityTimer
  | destroyStream (sessionId : String)
  | closeDataChannel
  | closeConnection
  | removePeerEntry
  | cancelStatsTicker
  | emitDisconnectedSample
  | markSessionCanceled (sessionId : String)
  deriving DecidableEq, Repr

/-- A transfer session as cleanup sees it: whether fileStream is set and
whether the canceled flag is set. -/
structure MSession where
  hasFileStream : Bool
  canceled : Bool
  deriving DecidableEq, Repr

/-- PeerConnectionData as the manager sees it: timeoutId set or not, the
transferSessions map, dataChannel set or not. -/
structure MPeerData where
  hasTimeout : Bool
  transferSessions : List (String × MSession)
  hasDataChannel : Bool
  deriving DecidableEq, Repr

/-- The manager state: the peerConnections map. -/
structure MgrState where
  peers : List (String × MPeerData)
  deriving DecidableEq, Repr

/-- Map lookup (Map.get) over an association list. -/
def alookup {α : Type} : List (String × α) → String → Option α
  | [], _ => none
  | (k, v) :: r, key => if k = key then some v else alookup r key

/-- The effect trace of PeerConnectionManager.cleanup lines 198-229 on a
present peer: clear the timeout if set, destroy the file stream of each
transfer session that has one, close the data channel if set, close the
connection, delete the map entry.  The code never cancels the stats ticker,
never emits a disconnected stats sample, and never sets the canceled flag of
a session here (those first two are done by the connection-state-change
handler, lines 88-96). -/
def cleanupActions (pd : MPeerData) : List CleanupAction :=
  (if pd.hasTimeout then [CleanupAction.clearInactivityTimer] else []) ++
  (pd.transferSessions.filterMap fun e =>
    if e.2.hasFileStream then some (CleanupAction.destroyStream e.1) else none) ++
  (if pd.hasDataChannel then [CleanupAction.closeDataChannel] else []) ++
  [CleanupAction.closeConnection, CleanupAction.removePeerEntry]

/-- PeerConnectionManager.cleanup: on a missing peer it does nothing; on a
present peer it performs cleanupActions and removes the entry. -/
def cleanup (st : MgrState) (cid : String) : MgrState × List CleanupAction :=
  match alookup st.peers cid with
  | none => (st, [])
  | some pd => (⟨st.peers.filter fun e => !(e.1 == cid)⟩, cleanupActions pd)

/-- PeerConnectionManager.updateLastActivity: refresh lastActivity and re-arm
the inactivity timer of a present peer; a no-op on an absent peer. -/
def updateLastActivity (st : MgrState) (cid : String) : MgrState :=
  ⟨st.peers.map fun e =>
    if e.1 = cid then (e.1, { e.2 with hasTimeout := true }) else e⟩

/-- FileTransferManager.cleanupTransferSession at manager scope: remove one
session from the transferSessions map of one peer; the peer entry itself is
untouched. -/
def cleanupTransferSession (st : MgrState) (cid sid : String) : MgrState :=
  ⟨st.peers.map fun e =>
    if e.1 = cid then
      (e.1, { e.2 with transferSessions := e.2.transferSessions.filter fun s => !(s.1 == sid) })
    else e⟩

/-- The concrete manager state used to exhibit the cleanup trace: peer A has
an armed inactivity timer, an open data channel, and one in-flight transfer
session s1 with a live file stream. -/
def c3State : MgrState :=
  ⟨[("A", ⟨true, [("s1", ⟨true, false⟩)], true⟩)]⟩

/-! ### Back-pressure timeout (claim C5). -/

/-- handleFlowControl lines 280-286: the wait deadline in milliseconds is
min(10000, max(1000, bufferedAmount / 1024)). -/
def timeoutDurationMs (bufferedAmount : ℚ) : ℚ :=
  min 10000 (max 1000 (bufferedAmount / 1024))

/-! ### Telemetry sampling (claim C4). -/

/-- StatsReporter.reportPeerStats lines 42-43 together with the storage at
PeerConnectionManager line 75: each published bytesSent value is the
data-channel cumulative counter minus the bytesSent of the previously
STORED sample, and the stored sample is the published one.  Folding over
the cumulative counter readings (one per second) yields the published
sequence; the first old value is 0 (oldPeerStats undefined). -/
def reportedBytesSent : Int → List Int → List Int
  | _, [] => []
  | prev, c :: r => (c - prev) :: reportedBytesSent (c - prev) r

/-- Modelled from the spec: per-interval rates, each cumulative counter
reading minus the cumulative reading observed at the previous sample. -/
def intervalDeltas : Int → List Int → List Int
  | _, [] => []
  | prev, c :: r => (c - prev) :: intervalDeltas c r

/-! ### startTransfer pre-flight gates (claim C7). -/

/-- The environment of one startTransfer call: whether the fragment path
resolves and the file exists, whether the data channel is open, the memory
probe result (si.mem available and total) and the channel bufferedAmount. -/
structure StartInput where
  fragmentFound : Bool
  channelOpen : Bool
  memAvailable : Rat
  memTotal : Rat
  bufferedAmount : Nat
  deriving DecidableEq, Repr

/-- Outbound JSON control frames on the data channel. -/
inductive CtrlMessage where
  | canceledMsg (sessionId fragmentId error : String)
  deriving DecidableEq, Repr

/-- What one startTransfer call produces: the statuses reported, the control
frames sent, whether a TransferSession was registered and streaming begun. -/
structure StartOutcome where
  reports : List RequestFragmentStatus
  controlMessages : List CtrlMessage
  sessionRegistered : Bool
  startedStreaming : Bool
  deriving DecidableEq, Repr

/-- FileTransferManager.checkSystemResources lines 150-164: the transfer may
start unless free memory is below 15 percent of total or the channel buffers
more than 10 MiB. -/
def checkSystemResources (memAvailable memTotal : Rat) (bufferedAmount : Nat) : Bool :=
  let memoryPercentage := memAvailable / memTotal * 100
  let highBufferAmount := decide (10 * 1024 * 1024 < bufferedAmount)
  if memoryPercentage < 15 ∨ highBufferAmount = true then false else true

/-- FileTransferManager.startTransfer lines 64-148: report STARTING, then the
fragment-lookup gate (FILE_NOT_FOUND), the channel-open gate
(DATA_CHANNEL_CLOSED), the resource gate (send a CANCELED control frame with
error "Node memory low, canceling transfer", report LOW_MEMORY), and
otherwise register the session, report IN_PROGRESS and begin streaming. -/
def startTransfer (inp : StartInput) (sessionId fragmentId : String) : StartOutcome :=
  if inp.fragmentFound = false then
    { reports := [.STARTING, .FILE_NOT_FOUND], controlMessages := [],
      sessionRegistered := false, startedStreaming := false }
  else if inp.channelOpen = false then
    { reports := [.STARTING, .DATA_CHANNEL_CLOSED], controlMessages := [],
      sessionRegistered := false, startedStreaming := false }
  else if checkSystemResources inp.memAvailable inp.memTotal inp.bufferedAmount = false then
    { reports := [.STARTING, .LOW_MEMORY],
      controlMessages := [CtrlMessage.canceledMsg sessionId fragmentId
        "Node memory low, canceling transfer"],
      sessionRegistered := false, startedStreaming := false }
  else
    { reports := [.STARTING, .IN_PROGRESS], controlMessages := [],
      sessionRegistered := true, startedStreaming := true }

/-! ### Startup fragment verification (claim C8). -/

/-- The id/hash entry of NodeResourcesVerify.resources. -/
structure FragmentHash where
  fragment_id : String
  hash : Option String
  deriving DecidableEq, Repr

/-- FileUtils.hashFiles: one entry per fragment path, fragment_id the file
basename, hash the hex BLAKE2b-256 digest (none when hashing fails).  The
filesystem and the hash function are abstracted by the two arguments. -/
def hashFiles (basenameOf : String → String) (hashOf : String → Option String)
    (filePaths : List String) : List FragmentHash :=
  filePaths.map fun p => { fragment_id := basenameOf p, hash := hashOf p }

/-- The signaling emissions of verifyFragmentMap. -/
inductive VerifyEmit where
  | hashEmpty
  | hashVerify (index : Nat) (total : Nat) (resources : List FragmentHash)
  deriving DecidableEq, Repr

def resourcesOf : VerifyEmit → List FragmentHash
  | .hashEmpty => []
  | .hashVerify _ _ rs => rs

/-- The emission loop of verifyFragmentMap lines 109-122: for
i = 0, 5, 10, ... emit the slice of at most LIMIT_VERIFY_FRAGMENT_PER_EMIT
= 5 entries starting at position i; rem is the suffix of the full list from
position i on, so the slice is rem.take 5. -/
def verifyChunkLoop (total i : Nat) (rem : List FragmentHash) : List VerifyEmit :=
  match rem with
  | [] => []
  | h :: t =>
    VerifyEmit.hashVerify i total ((h :: t).take 5) ::
      verifyChunkLoop total (i + 5) (t.drop 4)
termination_by rem.length
decreasing_by simp [List.length_drop]; omega

/-- SignalSocketController.verifyFragmentMap lines 90-123: emit hash_empty
when there are no fragment paths; otherwise hash the paths and emit the
id/hash list in chunks of 5, each tagged with its start index and the chunk
count Math.ceil(n / 5) = (n + 4) / 5. -/
def verifyFragmentMap (basenameOf : String → String) (hashOf : String → Option String)
    (fragmentPaths : List String) : List VerifyEmit :=
  if fragmentPaths.length = 0 then [VerifyEmit.hashEmpty]
  else
    verifyChunkLoop (((hashFiles basenameOf hashOf fragmentPaths).length + 4) / 5) 0
      (hashFiles basenameOf hashOf fragmentPaths)

/-! ### Delete command (claim C9). -/

/-- The id-collection loop of CommandSocketController.handleDelete: for each
fragment id, look up its path in the fragment index; when found, record the
path and remove the index entry (SettingUtils.removeFragmentPath); when
missing, log a warning and continue with the remaining ids.  Returns the
updated index, the collected paths in order, and the warned ids. -/
def collectDelete : List (String × String) → List String →
    List (String × String) × List String × List String
  | index, [] => (index, [], [])
  | index, fid :: rest =>
    match alookup index fid with
    | some p =>
      let r := collectDelete (index.filter fun e => !(e.1 == fid)) rest
      (r.1, p :: r.2.1, r.2.2)
    | none =>
      let r := collectDelete index rest
      (r.1, r.2.1, fid :: r.2.2)

/-- FileUtils.deleteFiles over FileUtils.deleteFile: unlink each listed path
that exists (existsSync guard); the disk is the list of existing paths. -/
def deleteFiles (disk : List String) (paths : List String) : List String :=
  paths.foldl (fun d p => if p ∈ d then d.filter fun q => !(q == p) else d) disk

structure DeleteResult where
  index : List (String × String)
  disk : List String
  warnings : List String
  deriving DecidableEq, Repr

/-- CommandSocketController.handleDelete (the version of the source bundle
at src/src/utils/file.ts lines 84-101): collect and remove the listed ids
from the fragment index, then unlink the collected paths. -/
def handleDelete (index : List (String × String)) (disk : List String)
    (fragmentIds : List String) : DeleteResult :=
  let r := collectDelete index fragmentIds
  { index := r.1, disk := deleteFiles disk r.2.1, warnings := r.2.2 }

/-! ### IP classification (claim C10). -/

/-- Splitting a character list on a single separator character, with the
semantics of String.split: the empty string yields one empty part, and
separators at the ends yield empty parts. -/
def splitOnCharAux (sep : Char) : List Char → List Char → List (List Char)
  | [], acc => [acc.reverse]
  | c :: rest, acc =>
    if c = sep then acc.reverse :: splitOnCharAux sep rest []
    else splitOnCharAux sep rest (c :: acc)

def splitOnChar (sep : Char) (cs : List Char) : List (List Char) :=
  splitOnCharAux sep cs []

/-- Splitting on the two-character separator of a double colon. -/
def splitDCAux : List Char → List Char → List (List Char)
  | ':' :: ':' :: rest, acc => acc.reverse :: splitDCAux rest []
  | c :: rest, acc => splitDCAux rest (c :: acc)
  | [], acc => [acc.reverse]

def splitDoubleColon (cs : List Char) : List (List Char) :=
  splitDCAux cs []

def isHexChar (c : Char) : Bool :=
  c.isDigit || (decide ('a' ≤ c) && decide (c ≤ 'f')) || (decide ('A' ≤ c) && decide (c ≤ 'F'))

/-- Decimal value of a digit list. -/
def decValue (cs : List Char) : Nat :=
  cs.foldl (fun a c => a * 10 + (c.toNat - '0'.toNat)) 0

/-- A valid dotted-quad octet: one to three decimal digits, value at most
255, no leading zero unless the octet is a single digit. -/
def validOctet (cs : List Char) : Bool :=
  decide (1 ≤ cs.length) && decide (cs.length ≤ 3) && cs.all Char.isDigit &&
    decide (decValue cs ≤ 255) &&
    (decide (cs.length = 1) || decide (cs.head? ≠ some '0'))

/-- Modelled from the Node net module (net.isIPv4, not part of this
repository): a valid IPv4 literal is four dot-separated octets. -/
def isIPv4Chars (cs : List Char) : Bool :=
  decide ((splitOnChar '.' cs).length = 4) && (splitOnChar '.' cs).all validOctet

/-- A valid 16-bit IPv6 group: one to four hex digits. -/
def validV6Group (cs : List Char) : Bool :=
  decide (1 ≤ cs.length) && decide (cs.length ≤ 4) && cs.all isHexChar

/-- Colon-separated groups of one side of an IPv6 literal; the empty side
(as in a leading or trailing double colon) has no groups. -/
def v6Groups (cs : List Char) : List (List Char) :=
  if cs = [] then [] else splitOnChar ':' cs

/-- Number of 16-bit groups a side stands for: each valid group counts one,
a trailing IPv4 literal (permitted only at the very end of the address)
counts two; none when some group is invalid. -/
def v6SideCount (v4TailAllowed : Bool) : List (List Char) → Option Nat
  | [] => some 0
  | [g] =>
    if validV6Group g then some 1
    else if v4TailAllowed && isIPv4Chars g then some 2
    else none
  | g :: gs =>
    if validV6Group g then (v6SideCount v4TailAllowed gs).map (· + 1) else none

/-- Modelled from the Node net module (net.isIPv6, not part of this
repository): either eight groups with no double colon (the last possibly an
IPv4 tail), or one double colon splitting the address into two sides whose
explicit groups total at most seven. -/
def isIPv6Chars (cs : List Char) : Bool :=
  match splitDoubleColon cs with
  | [whole] =>
    match v6SideCount true (v6Groups whole) with
    | some n => decide (n = 8)
    | none => false
  | [l, r] =>
    match v6SideCount false (v6Groups l), v6SideCount true (v6Groups r) with
    | some nl, some nr => decide (nl + nr ≤ 7)
    | _, _ => false
  | _ => false

/-- Modelled from the Node net module: net.isIP returns 4 for an IPv4
literal, 6 for an IPv6 literal, 0 otherwise. -/
def isIP (s : String) : Nat :=
  if isIPv4Chars s.data then 4 else if isIPv6Chars s.data then 6 else 0

/-- JS Number() applied to an octet-like part: none models NaN. -/
def octetNumber (cs : List Char) : Option Nat :=
  if cs ≠ [] ∧ cs.all Char.isDigit then some (decValue cs) else none

/-- NetworkUtils.isPrivateV4 lines 36-49: split on dots, read the first two
parts as numbers a and b, check the RFC 1918 blocks, loopback, link-local
and CGNAT ranges.  Comparisons against a missing (NaN) part are false. -/
def isPrivateV4 (ip : String) : Bool :=
  let parts := (splitOnChar '.' ip.data).map octetNumber
  match parts.getD 0 none, parts.getD 1 none with
  | some a, some b =>
    decide (a = 10) || (decide (a = 172) && decide (16 ≤ b) && decide (b ≤ 31)) ||
    (decide (a = 192) && decide (b = 168)) || decide (a = 127) ||
    (decide (a = 169) && decide (b = 254)) ||
    (decide (a = 100) && decide (64 ≤ b) && decide (b ≤ 127))
  | some a, none => decide (a = 10) || decide (a = 127)
  | _, _ => false

/-- NetworkUtils.isPrivateV6 lines 56-66: strip the zone, lowercase, check
the ULA prefixes fc and fd, the link-local prefix fe8 to feb, and the
loopback address. -/
def isPrivateV6 (ip : String) : Bool :=
  let addr := ((splitOnChar '%' ip.data).headD []).map Char.toLower
  List.isPrefixOf ['f', 'c'] addr || List.isPrefixOf ['f', 'd'] addr ||
  List.isPrefixOf ['f', 'e', '8'] addr || List.isPrefixOf ['f', 'e', '9'] addr ||
  List.isPrefixOf ['f', 'e', 'a'] addr || List.isPrefixOf ['f', 'e', 'b'] addr ||
  decide (addr = [':', ':', '1'])

inductive IpVersion where
  | IPv4
  | IPv6
  | unknown
  deriving DecidableEq, Repr

inductive IpKind where
  | priv
  | pub
  | unknown
  deriving DecidableEq, Repr

structure IpClassification where
  version : IpVersion
  type : IpKind
  deriving DecidableEq, Repr

/-- NetworkUtils.classifyIp lines 20-29: dispatch on isIP, then classify
private versus public with isPrivateV4 or isPrivateV6. -/
def classifyIp (ip : String) : IpClassification :=
  let ver := isIP ip
  if ver = 0 then ⟨IpVersion.unknown, IpKind.unknown⟩
  else if ver = 4 then
    ⟨IpVersion.IPv4, if isPrivateV4 ip then IpKind.priv else IpKind.pub⟩
  else
    ⟨IpVersion.IPv6, if isPrivateV6 ip then IpKind.priv else IpKind.pub⟩

lemma scriptOk_true_noStream : ∀ l, scriptOk true l = true →
    sumData l = 0 ∧ hasEnded l = false ∧ hasFin l = false := by
  intro l
  induction l with
  | nil => intro _; simp [sumData, hasEnded, hasFin]
  | cons e r ih =>
    intro hl
    cases e <;> simp [scriptOk] at hl
    · simpa [sumData, hasEnded, hasFin] using ih hl

lemma sumData_append (l₁ l₂ : List TEvent) :
    sumData (l₁ ++ l₂) = sumData l₁ + sumData l₂ := by
  induction l₁ with
  | nil => simp [sumData]
  | cons e r ih => cases e <;> simp [sumData, ih] <;> omega

lemma hasEnded_append (l₁ l₂ : List TEvent) :
    hasEnded (l₁ ++ l₂) = (hasEnded l₁ || hasEnded l₂) := by
  induction l₁ with
  | nil => simp [hasEnded]
  | cons e r ih => cases e <;> simp [hasEnded, ih]

lemma hasFin_append (l₁ l₂ : List TEvent) :
    hasFin (l₁ ++ l₂) = (hasFin l₁ || hasFin l₂) := by
  induction l₁ with
  | nil => simp [hasFin]
  | cons e r ih => cases e <;> simp [hasFin, ih]

lemma scriptOk_append (l₁ l₂ : List TEvent) : ∀ e : Bool,
    scriptOk e (l₁ ++ l₂) = (scriptOk e l₁ && scriptOk (e || hasEnded l₁) l₂) := by
  induction l₁ with
  | nil => intro e; simp [scriptOk, hasEnded]
  | cons ev r ih =>
    intro e
    cases ev <;> simp [scriptOk, hasEnded, ih, Bool.and_assoc]

lemma runEvents_append (idBuf : List Nat) (st : RunState) (l₁ l₂ : List TEvent) :
    runEvents idBuf st (l₁ ++ l₂) = runEvents idBuf (runEvents idBuf st l₁) l₂ := by
  simp [runEvents, List.foldl_append]

lemma runInv_init (fid : String) (T : Nat) : RunInv T (initRun fid T) 0 false := by
  simp [RunInv, initRun]

lemma runInv_step (idBuf : List Nat) (T : Nat) (st : RunState) (d : Nat) (ended : Bool)
    (hinv : RunInv T st d ended) :
    ∀ e : TEvent, (scriptOk ended [e] = true) →
      (hasFin [e] = true → d + sumData [e] = T) →
      RunInv T (stepEvent idBuf st e) (d + sumData [e]) (ended || hasEnded [e]) := by
  obtain ⟨h1, h2, h3, h4, h5, h6, h7, h8⟩ := hinv
  intro e hok hfin
  cases e with
  | data c t =>
    have hend : ended = false := by
      cases ended
      · rfl
      · simp [scriptOk] at hok
    subst hend
    simp only [sumData, hasEnded, Bool.or_false]
    by_cases hc : st.session.canceled = true
    · rw [RunInv]
      simp only [stepEvent]
      rw [if_pos hc]
      refine ⟨h1, by omega, ?_, h4, ?_, h6, h7, h8⟩
      · intro h; rw [h] at hc; cases hc
      · intro h; rw [h.2] at hc; cases hc
    · replace hc : st.session.canceled = false := by
        cases hcv : st.session.canceled
        · rfl
        · exact absurd hcv hc
      cases t with
      | true =>
        rw [RunInv]
        simp only [stepEvent, hc, Bool.false_eq_true, if_false, if_true]
        refine ⟨h1, by omega, ?_, ?_, ?_, ?_, ?_, ?_⟩
        · intro h; cases h
        · intro _; exact Or.inl (by trivial)
        · intro h; cases h.2
        · intro h; cases h
        · intro h; cases h
        · intro _; trivial
      | false =>
        rw [RunInv]
        simp only [stepEvent, hc, Bool.false_eq_true, if_false]
        have hsent := h3 hc
        refine ⟨h1, by omega, by intro _; omega, ?_, ?_, ?_, ?_, ?_⟩
        · intro h; cases h
        · intro h
          exact absurd (h5 ⟨h.1, hc⟩) (by simp)
        · intro h
          exact absurd (h5 ⟨Or.inl h, hc⟩) (by simp)
        · intro h; cases h
        · intro h
          rw [h8 h] at hc; cases hc
  | streamEnd =>
    have hend : ended = false := by
      cases ended
      · rfl
      · simp [scriptOk] at hok
    subst hend
    have hd : d + sumData [TEvent.streamEnd] = T := hfin (by simp [hasFin])
    simp only [sumData, Nat.add_zero] at hd ⊢
    simp only [hasEnded, Bool.or_true]
    by_cases hc : st.session.canceled = true
    · rw [RunInv]
      simp only [stepEvent]
      rw [if_pos hc]
      refine ⟨h1, by omega, ?_, h4, ?_, h6, ?_, h8⟩
      · intro h; rw [h] at hc; cases hc
      · intro h; rw [h.2] at hc; cases hc
      · intro _
        rcases h4 hc with h | h <;> simp [h]
    · replace hc : st.session.canceled = false := by
        cases hcv : st.session.canceled
        · rfl
        · exact absurd hcv hc
      rw [RunInv]
      simp only [stepEvent, hc, Bool.false_eq_true, if_false]
      have hsent := h3 hc
      refine ⟨h1, by omega, by intro _; omega, ?_, ?_, ?_, ?_, ?_⟩
      · intro h; cases h
      · intro _; trivial
      · intro _; exact ⟨by trivial, by omega⟩
      · intro _; simp
      · intro h; cases h
  | streamError msg =>
    have hend : ended = false := by
      cases ended
      · rfl
      · simp [scriptOk] at hok
    subst hend
    simp only [sumData, Nat.add_zero, hasEnded, Bool.or_true]
    by_cases hc : st.session.canceled = true
    · rw [RunInv]
      simp only [stepEvent]
      rw [if_pos hc]
      refine ⟨h1, by omega, ?_, h4, ?_, h6, ?_, h8⟩
      · intro h; rw [h] at hc; cases hc
      · intro h; rw [h.2] at hc; cases hc
      · intro _
        rcases h4 hc with h | h <;> simp [h]
    · replace hc : st.session.canceled = false := by
        cases hcv : st.session.canceled
        · rfl
        · exact absurd hcv hc
      rw [RunInv]
      simp only [stepEvent, hc, Bool.false_eq_true, if_false]
      have hsent := h3 hc
      refine ⟨h1, by omega, by intro _; omega, ?_, ?_, ?_, ?_, ?_⟩
      · intro h; cases h
      · intro _; trivial
      · intro h; cases h
      · intro _; simp
      · intro h; cases h
  | remoteCancel =>
    simp only [sumData, hasEnded, Bool.or_false, Nat.add_zero]
    by_cases hg : st.inMap ∧ st.session.status = TransferStatus.inProgress
    · rw [RunInv]
      simp only [stepEvent, if_pos hg]
      refine ⟨h1, by omega, ?_, ?_, ?_, ?_, ?_, ?_⟩
      · intro h; cases h
      · intro _; exact Or.inr (by trivial)
      · intro h; rcases h.1 with h | h <;> cases h
      · intro h; cases h
      · intro _; simp
      · intro _; trivial
    · simp only [stepEvent, if_neg hg]
      exact ⟨h1, h2, h3, h4, h5, h6, h7, h8⟩

lemma runInv_run (idBuf : List Nat) (T : Nat) :
    ∀ (evts : List TEvent) (st : RunState) (d : Nat) (ended : Bool),
    RunInv T st d ended →
    scriptOk ended evts = true →
    (hasFin evts = true → d + sumData evts = T) →
    RunInv T (runEvents idBuf st evts) (d + sumData evts) (ended || hasEnded evts) := by
  intro evts
  induction evts with
  | nil => intro st d ended hinv _ _; simpa [runEvents, sumData, hasEnded] using hinv
  | cons e r ih =>
    intro st d ended hinv hok hfin
    have hsplit : (e :: r) = [e] ++ r := rfl
    rw [hsplit] at hok hfin ⊢
    rw [scriptOk_append] at hok
    simp only [Bool.and_eq_true] at hok
    have hfin1 : hasFin [e] = true → d + sumData [e] = T := by
      intro h1
      rcases e with _ | _ | _ | _ <;> simp [hasFin] at h1
      -- only streamEnd survives
      have : scriptOk (ended || hasEnded [TEvent.streamEnd]) r = true := hok.2
      simp only [hasEnded, Bool.or_true] at this
      obtain ⟨hs, _, _⟩ := scriptOk_true_noStream r this
      have := hfin (by rw [hasFin_append]; simp [hasFin])
      rw [sumData_append] at this
      simp only [sumData] at this ⊢
      omega
    have hstep := runInv_step idBuf T st d ended hinv e hok.1 hfin1
    have hrest := ih (stepEvent idBuf st e) (d + sumData [e]) (ended || hasEnded [e]) hstep
      hok.2 ?_
    · rw [runEvents_append, sumData_append, hasEnded_append]
      have h1 : runEvents idBuf st [e] = stepEvent idBuf st e := by simp [runEvents]
      rw [h1]
      have h2 : d + (sumData [e] + sumData r) = d + sumData [e] + sumData r := by omega
      rw [h2]
      have h3 : (ended || (hasEnded [e] || hasEnded r)) = (ended || hasEnded [e] || hasEnded r) := by
        simp [Bool.or_assoc]
      rw [h3]
      exact hrest
    · intro hfr
      have := hfin (by rw [hasFin_append]; simp [hfr])
      rw [sumData_append] at this
      omega

/-- Once the canceled flag is set (and hence, by the invariant, the status is
failed or canceled), every further event leaves the run state untouched: the
data callback returns at its canceled guard, the end and error handlers
return at theirs, and cancelTransfer is a no-op because the status is not
in-progress. -/
lemma run_canceled_frozen (idBuf : List Nat) :
    ∀ (l : List TEvent) (st : RunState), st.session.canceled = true →
    (st.session.status = .failed ∨ st.session.status = .canceled) →
    runEvents idBuf st l = st := by
  intro l
  induction l with
  | nil => intro st _ _; simp [runEvents]
  | cons e r ih =>
    intro st hc hst
    have hstep : stepEvent idBuf st e = st := by
      cases e with
      | data c t => simp [stepEvent, hc]
      | streamEnd => simp [stepEvent, hc]
      | streamError msg => simp [stepEvent, hc]
      | remoteCancel =>
        have : ¬(st.inMap ∧ st.session.status = .inProgress) := by
          intro ⟨_, hb⟩
          rcases hst with h | h <;> rw [h] at hb <;> cases hb
        simp [stepEvent, if_neg this]
    show runEvents idBuf (stepEvent idBuf st e) r = st
    rw [hstep]
    exact ih st hc hst

/-- After the stream has ended, a well-formed script contains only remote
cancel messages; each is a no-op on a session that is no longer in-progress. -/
lemma run_onlyCancels_frozen (idBuf : List Nat) :
    ∀ (l : List TEvent) (st : RunState), scriptOk true l = true →
    st.session.status ≠ .inProgress →
    runEvents idBuf st l = st := by
  intro l
  induction l with
  | nil => intro st _ _; simp [runEvents]
  | cons e r ih =>
    intro st hok hst
    cases e with
    | data c t => simp [scriptOk] at hok
    | streamEnd => simp [scriptOk] at hok
    | streamError msg => simp [scriptOk] at hok
    | remoteCancel =>
      simp only [scriptOk] at hok
      have hstep : stepEvent idBuf st TEvent.remoteCancel = st := by
        have : ¬(st.inMap ∧ st.session.status = .inProgress) := by
          intro ⟨_, hb⟩; exact hst hb
        simp [stepEvent, if_neg this]
      show runEvents idBuf (stepEvent idBuf st TEvent.remoteCancel) r = st
      rw [hstep]
      exact ih st hok hst

lemma hasFin_imp_hasEnded : ∀ l, hasFin l = true → hasEnded l = true := by
  intro l
  induction l with
  | nil => intro h; simp [hasFin] at h
  | cons e r ih =>
    intro h
    cases e <;> simp [hasFin, hasEnded] at h ⊢ <;> exact ih h

/-- Invariant established at any prefix of a well-formed script of a whole
transfer.  This packages runInv_run for the prefix l₁ of evts = l₁ ++ l₂. -/
lemma runInv_prefix (idBuf : List Nat) (fid : String) (T : Nat)
    (l₁ l₂ : List TEvent)
    (hok : scriptOk false (l₁ ++ l₂) = true)
    (hsum : sumData (l₁ ++ l₂) ≤ T)
    (hfin : hasFin (l₁ ++ l₂) = true → sumData (l₁ ++ l₂) = T) :
    RunInv T (runEvents idBuf (initRun fid T) l₁) (sumData l₁) (hasEnded l₁) ∧
    scriptOk (hasEnded l₁) l₂ = true ∧ sumData l₁ ≤ T := by
  rw [scriptOk_append] at hok
  simp only [Bool.and_eq_true, Bool.false_or] at hok
  have hsum₁ : sumData l₁ ≤ T := by
    rw [sumData_append] at hsum; omega
  have hfin₁ : hasFin l₁ = true → 0 + sumData l₁ = T := by
    intro hf
    have hEnd := hasFin_imp_hasEnded l₁ hf
    have hok₂ : scriptOk true l₂ = true := by
      have := hok.2; rwa [hEnd] at this
    obtain ⟨hs2, _, _⟩ := scriptOk_true_noStream l₂ hok₂
    have := hfin (by rw [hasFin_append, hf]; rfl)
    rw [sumData_append, hs2] at this
    omega
  have h := runInv_run idBuf T l₁ (initRun fid T) 0 false (runInv_init fid T) hok.1 hfin₁
  simp only [Nat.zero_add, Bool.false_or] at h
  exact ⟨h, hok.2, hsum₁⟩

/-- C2: for every transfer session, at every point of its lifetime
0 ≤ sent_bytes ≤ total_bytes, and when the status is completed,
sent_bytes = total_bytes.  The events are any well-formed script of the
fs.ReadStream driving the transfer: the data chunks deliver at most the
total_bytes of the file and the end callback fires only once all of them
have been delivered; l₁ ranges over the prefixes of the script, i.e. over
all points of the lifetime of the session. -/
theorem transfer_session_byte_invariant (idBuf : List Nat) (fid : String) (T : Nat)
    (evts l₁ l₂ : List TEvent)
    (hsplit : evts = l₁ ++ l₂)
    (hok : scriptOk false evts = true)
    (hsum : sumData evts ≤ T)
    (hfin : hasFin evts = true → sumData evts = T) :
    0 ≤ (runEvents idBuf (initRun fid T) l₁).session.sentBytes ∧
    (runEvents idBuf (initRun fid T) l₁).session.sentBytes ≤
      (runEvents idBuf (initRun fid T) l₁).session.totalBytes ∧
    ((runEvents idBuf (initRun fid T) l₁).session.status = TransferStatus.completed →
      (runEvents idBuf (initRun fid T) l₁).session.sentBytes =
        (runEvents idBuf (initRun fid T) l₁).session.totalBytes) := by
  subst hsplit
  obtain ⟨⟨h1, h2, h3, h4, h5, h6, h7, h8⟩, _, hsum₁⟩ :=
    runInv_prefix idBuf fid T l₁ l₂ hok hsum hfin
  refine ⟨Nat.zero_le _, ?_, ?_⟩
  · rw [h1]; omega
  · intro hc
    rw [h1]
    exact (h6 hc).2

/-- Witness for the transfer byte invariant: a two-chunk transfer of a
3-byte file, observed right after the first chunk and at completion. -/
theorem transfer_session_byte_invariant_witness :
    (0 ≤ (runEvents [65] (initRun "f1" 3) [TEvent.data [7, 8] false]).session.sentBytes ∧
     (runEvents [65] (initRun "f1" 3) [TEvent.data [7, 8] false]).session.sentBytes ≤
       (runEvents [65] (initRun "f1" 3) [TEvent.data [7, 8] false]).session.totalBytes ∧
     ((runEvents [65] (initRun "f1" 3) [TEvent.data [7, 8] false]).session.status =
         TransferStatus.completed →
       (runEvents [65] (initRun "f1" 3) [TEvent.data [7, 8] false]).session.sentBytes =
         (runEvents [65] (initRun "f1" 3) [TEvent.data [7, 8] false]).session.totalBytes)) ∧
    (0 ≤ (runEvents [65] (initRun "f1" 3)
        [TEvent.data [7, 8] false, TEvent.data [9] false, TEvent.streamEnd]).session.sentBytes ∧
     (runEvents [65] (initRun "f1" 3)
        [TEvent.data [7, 8] false, TEvent.data [9] false, TEvent.streamEnd]).session.sentBytes ≤
       (runEvents [65] (initRun "f1" 3)
        [TEvent.data [7, 8] false, TEvent.data [9] false, TEvent.streamEnd]).session.totalBytes ∧
     ((runEvents [65] (initRun "f1" 3)
        [TEvent.data [7, 8] false, TEvent.data [9] false, TEvent.streamEnd]).session.status =
         TransferStatus.completed →
       (runEvents [65] (initRun "f1" 3)
        [TEvent.data [7, 8] false, TEvent.data [9] false, TEvent.streamEnd]).session.sentBytes =
         (runEvents [65] (initRun "f1" 3)
        [TEvent.data [7, 8] false, TEvent.data [9] false, TEvent.streamEnd]).session.totalBytes)) := by
  constructor
  · exact transfer_session_byte_invariant [65] "f1" 3
      [TEvent.data [7, 8] false, TEvent.data [9] false, TEvent.streamEnd]
      [TEvent.data [7, 8] false] [TEvent.data [9] false, TEvent.streamEnd]
      rfl (by decide) (by decide) (by decide)
  · exact transfer_session_byte_invariant [65] "f1" 3
      [TEvent.data [7, 8] false, TEvent.data [9] false, TEvent.streamEnd]
      [TEvent.data [7, 8] false, TEvent.data [9] false, TEvent.streamEnd] []
      (by simp) (by decide) (by decide) (by decide)

/-- C6: once the canceled flag of a session is set, no further data frames
are sent for it (the frames list never grows again), and the terminal status
is unique: once the status leaves in-progress it never changes again, and a
script whose stream has ended leaves the session in a terminal status. -/
theorem canceled_stops_frames_terminal_unique (idBuf : List Nat) (fid : String) (T : Nat)
    (evts l₁ l₂ : List TEvent)
    (hsplit : evts = l₁ ++ l₂)
    (hok : scriptOk false evts = true)
    (hsum : sumData evts ≤ T)
    (hfin : hasFin evts = true → sumData evts = T) :
    ((runEvents idBuf (initRun fid T) l₁).session.canceled = true →
      (runEvents idBuf (initRun fid T) evts).frames =
        (runEvents idBuf (initRun fid T) l₁).frames) ∧
    ((runEvents idBuf (initRun fid T) l₁).session.status ≠ TransferStatus.inProgress →
      (runEvents idBuf (initRun fid T) evts).session.status =
        (runEvents idBuf (initRun fid T) l₁).session.status) ∧
    (hasEnded evts = true →
      (runEvents idBuf (initRun fid T) evts).session.status ≠ TransferStatus.inProgress) := by
  have hfull : runEvents idBuf (initRun fid T) evts =
      runEvents idBuf (runEvents idBuf (initRun fid T) l₁) l₂ := by
    rw [hsplit, runEvents_append]
  obtain ⟨⟨h1, h2, h3, h4, h5, h6, h7, h8⟩, hok₂, _⟩ :=
    runInv_prefix idBuf fid T l₁ l₂ (hsplit ▸ hok) (hsplit ▸ hsum) (hsplit ▸ hfin)
  refine ⟨?_, ?_, ?_⟩
  · intro hc
    rw [hfull, run_canceled_frozen idBuf l₂ _ hc (h4 hc)]
  · intro hst
    cases hcv : (runEvents idBuf (initRun fid T) l₁).session.canceled with
    | true =>
      rw [hfull, run_canceled_frozen idBuf l₂ _ hcv (h4 hcv)]
    | false =>
      have hEnd : hasEnded l₁ = true := by
        cases hsv : (runEvents idBuf (initRun fid T) l₁).session.status with
        | inProgress => exact absurd hsv hst
        | completed => exact h5 ⟨Or.inl hsv, hcv⟩
        | failed => exact h5 ⟨Or.inr hsv, hcv⟩
        | canceled => rw [h8 hsv] at hcv; cases hcv
      rw [hEnd] at hok₂
      rw [hfull, run_onlyCancels_frozen idBuf l₂ _ hok₂ hst]
  · intro hEnd
    have hfin₂ : hasFin evts = true → 0 + sumData evts = T := by
      intro hf; rw [Nat.zero_add]; exact hfin hf
    have h := runInv_run idBuf T evts (initRun fid T) 0 false (runInv_init fid T) hok hfin₂
    simp only [Nat.zero_add, Bool.false_or] at h
    rw [hEnd] at h
    exact h.2.2.2.2.2.2.1 rfl

/-- Witness for the cancellation and terminal-uniqueness theorem: a remote
cancel arrives after the first chunk; the later data chunk and end callback
do not extend the frames and do not change the canceled status. -/
theorem canceled_stops_frames_terminal_unique_witness :
    (((runEvents [65] (initRun "f1" 3)
        [TEvent.data [7] false, TEvent.remoteCancel]).session.canceled = true →
      (runEvents [65] (initRun "f1" 3)
        [TEvent.data [7] false, TEvent.remoteCancel, TEvent.data [8, 9] false,
          TEvent.streamEnd]).frames =
        (runEvents [65] (initRun "f1" 3)
          [TEvent.data [7] false, TEvent.remoteCancel]).frames) ∧
    ((runEvents [65] (initRun "f1" 3)
        [TEvent.data [7] false, TEvent.remoteCancel]).session.status ≠
          TransferStatus.inProgress →
      (runEvents [65] (initRun "f1" 3)
        [TEvent.data [7] false, TEvent.remoteCancel, TEvent.data [8, 9] false,
          TEvent.streamEnd]).session.status =
        (runEvents [65] (initRun "f1" 3)
          [TEvent.data [7] false, TEvent.remoteCancel]).session.status) ∧
    (hasEnded [TEvent.data [7] false, TEvent.remoteCancel, TEvent.data [8, 9] false,
        TEvent.streamEnd] = true →
      (runEvents [65] (initRun "f1" 3)
        [TEvent.data [7] false, TEvent.remoteCancel, TEvent.data [8, 9] false,
          TEvent.streamEnd]).session.status ≠ TransferStatus.inProgress)) := by
  exact canceled_stops_frames_terminal_unique [65] "f1" 3
    [TEvent.data [7] false, TEvent.remoteCancel, TEvent.data [8, 9] false, TEvent.streamEnd]
    [TEvent.data [7] false, TEvent.remoteCancel]
    [TEvent.data [8, 9] false, TEvent.streamEnd]
    rfl (by decide) (by decide) (by decide)

lemma stepEvent_streamEnd_frames (idBuf : List Nat) (st : RunState) :
    (stepEvent idBuf st TEvent.streamEnd).frames = st.frames := by
  cases hc : st.session.canceled <;> simp [stepEvent, hc]

lemma runEvents_dataFrames (idBuf : List Nat) :
    ∀ (chunks : List (List Nat)) (st : RunState), st.session.canceled = false →
    (runEvents idBuf st (chunks.map fun c => TEvent.data c false)).frames =
      st.frames ++ mkFrames idBuf st.session.totalBytes st.session.sentBytes chunks ∧
    (runEvents idBuf st (chunks.map fun c => TEvent.data c false)).session.canceled = false := by
  intro chunks
  induction chunks with
  | nil => intro st hc; simp [runEvents, mkFrames, hc]
  | cons c cs ih =>
    intro st hc
    have hstep : stepEvent idBuf st (TEvent.data c false) =
        { st with
          session := { st.session with sentBytes := st.session.sentBytes + c.length }
          frames := st.frames ++
            [sendChunkFrame idBuf st.session.sentBytes st.session.totalBytes c] } := by
      simp [stepEvent, hc]
    have hcNew : (stepEvent idBuf st (TEvent.data c false)).session.canceled = false := by
      rw [hstep]; exact hc
    obtain ⟨hframes, hcanc⟩ := ih (stepEvent idBuf st (TEvent.data c false)) hcNew
    constructor
    · show (runEvents idBuf (stepEvent idBuf st (TEvent.data c false))
          (cs.map fun c => TEvent.data c false)).frames =
        st.frames ++ mkFrames idBuf st.session.totalBytes st.session.sentBytes (c :: cs)
      rw [hframes, hstep]
      simp [mkFrames, List.append_assoc]
    · show (runEvents idBuf (stepEvent idBuf st (TEvent.data c false))
          (cs.map fun c => TEvent.data c false)).session.canceled = false
      exact hcanc

lemma mkFrames_length (idBuf : List Nat) (T : Nat) :
    ∀ (cs : List (List Nat)) (s : Nat), (mkFrames idBuf T s cs).length = cs.length := by
  intro cs
  induction cs with
  | nil => intro s; simp [mkFrames]
  | cons c r ih => intro s; simp [mkFrames, ih]

lemma mkFrames_head_id (idBuf : List Nat) (T : Nat) :
    ∀ (cs : List (List Nat)) (s : Nat), ∀ f ∈ mkFrames idBuf T s cs,
      f.head? = some idBuf.length ∧ (f.drop 2).take idBuf.length = idBuf := by
  intro cs
  induction cs with
  | nil => intro s f hf; simp [mkFrames] at hf
  | cons c r ih =>
    intro s f hf
    simp only [mkFrames, List.mem_cons] at hf
    rcases hf with hf | hf
    · subst hf
      constructor
      · rfl
      · show ((idBuf ++ c).take idBuf.length) = idBuf
        exact List.take_left idBuf c
    · exact ih _ f hf

lemma mkFrames_payloads (idBuf : List Nat) (T : Nat) :
    ∀ (cs : List (List Nat)) (s : Nat),
      (mkFrames idBuf T s cs).map (fun f => f.drop (2 + idBuf.length)) = cs := by
  intro cs
  induction cs with
  | nil => intro s; simp [mkFrames]
  | cons c r ih =>
    intro s
    simp only [mkFrames, List.map_cons, ih]
    congr 1
    show (idBuf.length :: (if T ≤ s + c.length then 1 else 0) :: idBuf ++ c).drop
      (2 + idBuf.length) = c
    rw [Nat.add_comm 2 idBuf.length]
    show (idBuf.length :: (if T ≤ s + c.length then 1 else 0) :: (idBuf ++ c)).drop
      (idBuf.length + 1 + 1) = c
    rw [List.drop_succ_cons, List.drop_succ_cons]
    exact List.drop_left idBuf c

lemma sum_lengths_eq_zero {cs : List (List Nat)} (hne : ∀ c ∈ cs, c ≠ []) :
    ((cs.map List.length).sum = 0 ↔ cs = []) := by
  cases cs with
  | nil => simp
  | cons c r =>
    simp only [List.map_cons, List.sum_cons, List.cons_ne_nil, iff_false]
    have : c ≠ [] := hne c (by simp)
    have : 0 < c.length := List.length_pos.mpr this
    omega

lemma mkFrames_flag (idBuf : List Nat) :
    ∀ (cs : List (List Nat)) (s T : Nat), (∀ c ∈ cs, c ≠ []) →
    T = s + (cs.map List.length).sum →
    ∀ i (h : i < (mkFrames idBuf T s cs).length),
      (((mkFrames idBuf T s cs).get ⟨i, h⟩)[1]? = some 1) ↔ i + 1 = cs.length := by
  intro cs
  induction cs with
  | nil => intro s T _ _ i h; simp [mkFrames] at h
  | cons c r ih =>
    intro s T hne hT i h
    cases i with
    | zero =>
      show ((sendChunkFrame idBuf s T c)[1]? = some 1) ↔ 0 + 1 = (c :: r).length
      have hfr : (sendChunkFrame idBuf s T c)[1]? =
          some (if T ≤ s + c.length then 1 else 0) := by
        simp [sendChunkFrame]
      rw [hfr]
      by_cases hcond : T ≤ s + c.length
      · have hr0 : (r.map List.length).sum = 0 := by
          rw [hT] at hcond
          simp only [List.map_cons, List.sum_cons] at hcond
          omega
        have : r = [] := (sum_lengths_eq_zero (fun c hc => hne c (by simp [hc]))).mp hr0
        subst this
        simp [hcond]
      · have hrpos : (r.map List.length).sum ≠ 0 := by
          intro h0
          apply hcond
          rw [hT]
          simp only [List.map_cons, List.sum_cons, h0]
          omega
        have hrne : r ≠ [] := by
          intro h0; subst h0; simp at hrpos
        simp only [hcond, if_false, List.length_cons]
        constructor
        · intro h0; cases h0
        · intro h0
          have : r.length = 0 := by omega
          exact absurd (List.length_eq_zero.mp this) hrne
    | succ n =>
      have hlen : n < (mkFrames idBuf T (s + c.length) r).length := by
        have := h
        simp only [mkFrames, List.length_cons] at this
        omega
      have hget : (mkFrames idBuf T s (c :: r)).get ⟨n + 1, h⟩ =
          (mkFrames idBuf T (s + c.length) r).get ⟨n, hlen⟩ := rfl
      rw [hget]
      have hT₂ : T = s + c.length + (r.map List.length).sum := by
        rw [hT]
        simp only [List.map_cons, List.sum_cons]
        omega
      have := ih (s + c.length) T (fun c hc => hne c (by simp [hc])) hT₂ n hlen
      rw [this]
      simp only [List.length_cons]
      omega

/-- C1: the binary frames the streamer emits for a READY_NODE session with a
session id of L bytes (1 ≤ L ≤ 255), over an uninterrupted run whose chunks
concatenate to the fragment file: byte 0 of every frame is L, bytes 2..2+L-1
are the session id, the payloads (the bytes past 2+L) concatenate in order
to the fragment bytes, and byte 1 (the last-chunk flag) is 1 on exactly the
final frame. -/
theorem frame_wire_format (idBuf fileBytes : List Nat) (chunks : List (List Nat)) (fid : String)
    (hL1 : 1 ≤ idBuf.length) (hL255 : idBuf.length ≤ 255)
    (hjoin : chunks.join = fileBytes)
    (hne : ∀ c ∈ chunks, c ≠ []) :
    (runEvents idBuf (initRun fid fileBytes.length)
        ((chunks.map fun c => TEvent.data c false) ++ [TEvent.streamEnd])).frames.length =
      chunks.length ∧
    (∀ f ∈ (runEvents idBuf (initRun fid fileBytes.length)
        ((chunks.map fun c => TEvent.data c false) ++ [TEvent.streamEnd])).frames,
      f.head? = some idBuf.length ∧ (f.drop 2).take idBuf.length = idBuf) ∧
    ((runEvents idBuf (initRun fid fileBytes.length)
        ((chunks.map fun c => TEvent.data c false) ++ [TEvent.streamEnd])).frames.map
          (fun f => f.drop (2 + idBuf.length))).join = fileBytes ∧
    (∀ i (h : i < (runEvents idBuf (initRun fid fileBytes.length)
        ((chunks.map fun c => TEvent.data c false) ++ [TEvent.streamEnd])).frames.length),
      (((runEvents idBuf (initRun fid fileBytes.length)
        ((chunks.map fun c => TEvent.data c false) ++ [TEvent.streamEnd])).frames.get
          ⟨i, h⟩)[1]? = some 1) ↔
        i + 1 = (runEvents idBuf (initRun fid fileBytes.length)
        ((chunks.map fun c => TEvent.data c false) ++ [TEvent.streamEnd])).frames.length) := by
  have hframes : (runEvents idBuf (initRun fid fileBytes.length)
      ((chunks.map fun c => TEvent.data c false) ++ [TEvent.streamEnd])).frames =
      mkFrames idBuf fileBytes.length 0 chunks := by
    rw [runEvents_append]
    have h1 : runEvents idBuf
        (runEvents idBuf (initRun fid fileBytes.length) (chunks.map fun c => TEvent.data c false))
        [TEvent.streamEnd] =
        stepEvent idBuf
          (runEvents idBuf (initRun fid fileBytes.length)
            (chunks.map fun c => TEvent.data c false)) TEvent.streamEnd := rfl
    rw [h1, stepEvent_streamEnd_frames]
    have h2 := runEvents_dataFrames idBuf chunks (initRun fid fileBytes.length) rfl
    rw [h2.1]
    simp [initRun]
  have hT : fileBytes.length = 0 + (chunks.map List.length).sum := by
    rw [← hjoin, List.length_join]
    omega
  rw [hframes]
  refine ⟨mkFrames_length idBuf fileBytes.length chunks 0, ?_, ?_, ?_⟩
  · intro f hf
    exact mkFrames_head_id idBuf fileBytes.length chunks 0 f hf
  · rw [mkFrames_payloads idBuf fileBytes.length chunks 0]
    exact hjoin
  · intro i h
    rw [mkFrames_flag idBuf chunks 0 fileBytes.length hne hT i h,
      mkFrames_length idBuf fileBytes.length chunks 0]

/-- Witness for the frame wire format: a 1-byte session id streaming a
3-byte file in two chunks. -/
theorem frame_wire_format_witness :
    (runEvents [65] (initRun "f1" 3)
        (([[7, 8], [9]].map fun c => TEvent.data c false) ++ [TEvent.streamEnd])).frames.length =
      ([[7, 8], [9]] : List (List Nat)).length ∧
    (∀ f ∈ (runEvents [65] (initRun "f1" 3)
        (([[7, 8], [9]].map fun c => TEvent.data c false) ++ [TEvent.streamEnd])).frames,
      f.head? = some ([65] : List Nat).length ∧
        (f.drop 2).take ([65] : List Nat).length = [65]) ∧
    ((runEvents [65] (initRun "f1" 3)
        (([[7, 8], [9]].map fun c => TEvent.data c false) ++ [TEvent.streamEnd])).frames.map
          (fun f => f.drop (2 + ([65] : List Nat).length))).join = [7, 8, 9] ∧
    (∀ i (h : i < (runEvents [65] (initRun "f1" 3)
        (([[7, 8], [9]].map fun c => TEvent.data c false) ++ [TEvent.streamEnd])).frames.length),
      (((runEvents [65] (initRun "f1" 3)
        (([[7, 8], [9]].map fun c => TEvent.data c false) ++ [TEvent.streamEnd])).frames.get
          ⟨i, h⟩)[1]? = some 1) ↔
        i + 1 = (runEvents [65] (initRun "f1" 3)
        (([[7, 8], [9]].map fun c => TEvent.data c false) ++ [TEvent.streamEnd])).frames.length) := by
  have h : ([7, 8, 9] : List Nat).length = 3 := rfl
  exact h ▸ frame_wire_format [65] [7, 8, 9] [[7, 8], [9]] "f1"
    (by decide) (by decide) (by decide) (by decide)

lemma alookup_filter_self {α : Type} (l : List (String × α)) (cid : String) :
    alookup (l.filter fun e => !(e.1 == cid)) cid = none := by
  induction l with
  | nil => simp [alookup]
  | cons e r ih =>
    by_cases h : e.1 = cid
    · simp [List.filter, h, ih]
    · have hb : (e.1 == cid) = false := by
        simp [h]
      simp [List.filter, hb, alookup, h, ih]

lemma alookup_none_notMem {α : Type} (l : List (String × α)) (cid : String)
    (h : alookup l cid = none) : ∀ e ∈ l, e.1 ≠ cid := by
  induction l with
  | nil => intro e he; simp at he
  | cons x r ih =>
    intro e he
    simp only [alookup] at h
    by_cases hx : x.1 = cid
    · rw [if_pos hx] at h; cases h
    · rw [if_neg hx] at h
      rcases List.mem_cons.mp he with he | he
      · subst he; exact hx
      · exact ih h e he

lemma map_update_id (r : List (String × MPeerData)) (cid : String)
    (hne : ∀ e ∈ r, e.1 ≠ cid) :
    r.map (fun e => if e.1 = cid then (e.1, { e.2 with hasTimeout := true }) else e) = r := by
  induction r with
  | nil => simp
  | cons e t ih =>
    simp only [List.map_cons]
    rw [if_neg (hne e (by simp)), ih (fun x hx => hne x (by simp [hx]))]

lemma updateLastActivity_absent (st : MgrState) (cid : String)
    (h : alookup st.peers cid = none) : updateLastActivity st cid = st := by
  have hne := alookup_none_notMem st.peers cid h
  cases st with
  | mk peers =>
    simp only [updateLastActivity, MgrState.mk.injEq]
    exact map_update_id peers cid hne

/-- Counterexample to C3 as stated: on the concrete state c3State the
cleanup trace starts by clearing the inactivity timer rather than cancelling
the stats ticker, contains no stats-ticker cancellation, no disconnected
stats sample, and never marks the session canceled; those duties sit in the
connection-state-change handler, not in cleanup. -/
theorem cleanup_trace_counterexample :
    (cleanup c3State "A").2 =
      [CleanupAction.clearInactivityTimer, CleanupAction.destroyStream "s1",
        CleanupAction.closeDataChannel, CleanupAction.closeConnection,
        CleanupAction.removePeerEntry] ∧
    CleanupAction.cancelStatsTicker ∉ (cleanup c3State "A").2 ∧
    CleanupAction.emitDisconnectedSample ∉ (cleanup c3State "A").2 ∧
    CleanupAction.markSessionCanceled "s1" ∉ (cleanup c3State "A").2 := by
  decide

/-- C3 as amended: cleanup of a present peer performs, in order, clear the
inactivity timer (if armed), destroy the file stream of every transfer
session (without marking them canceled), close the data channel (if set),
close the transport, remove the map entry; it is idempotent, the peer id is
absent afterwards, and a later activity update re-arms no timer for it. -/
theorem cleanup_ordered_idempotent (st : MgrState) (cid : String) (pd : MPeerData)
    (hpd : alookup st.peers cid = some pd) :
    (cleanup st cid).2 = cleanupActions pd ∧
    cleanup (cleanup st cid).1 cid = ((cleanup st cid).1, []) ∧
    alookup (cleanup st cid).1.peers cid = none ∧
    updateLastActivity (cleanup st cid).1 cid = (cleanup st cid).1 := by
  have hclean : cleanup st cid =
      (⟨st.peers.filter fun e => !(e.1 == cid)⟩, cleanupActions pd) := by
    simp [cleanup, hpd]
  have habsent : alookup (cleanup st cid).1.peers cid = none := by
    rw [hclean]
    exact alookup_filter_self st.peers cid
  refine ⟨by rw [hclean], ?_, habsent, updateLastActivity_absent _ cid habsent⟩
  show cleanup (cleanup st cid).1 cid = ((cleanup st cid).1, [])
  rw [hclean]
  simp [cleanup, alookup_filter_self]

/-- Witness for the amended cleanup theorem, at the concrete state c3State. -/
theorem cleanup_ordered_idempotent_witness :
    (cleanup c3State "A").2 = cleanupActions ⟨true, [("s1", ⟨true, false⟩)], true⟩ ∧
    cleanup (cleanup c3State "A").1 "A" = ((cleanup c3State "A").1, []) ∧
    alookup (cleanup c3State "A").1.peers "A" = none ∧
    updateLastActivity (cleanup c3State "A").1 "A" = (cleanup c3State "A").1 := by
  exact cleanup_ordered_idempotent c3State "A" ⟨true, [("s1", ⟨true, false⟩)], true⟩ (by decide)

lemma cleanupTransferSession_keeps_peers (ms : MgrState) (cid sid : String) :
    (cleanupTransferSession ms cid sid).peers.map Prod.fst = ms.peers.map Prod.fst := by
  cases ms with
  | mk peers =>
    simp only [cleanupTransferSession]
    induction peers with
    | nil => simp
    | cons e r ih =>
      simp only [List.map_cons, ih]
      by_cases h : e.1 = cid
      · rw [if_pos h]
      · rw [if_neg h]

/-- Counterexample to C5 as stated: a concrete transfer whose second chunk
hits the back-pressure deadline is marked failed with the right error and is
cleaned up, but no FAILED status is reported (the claim says status FAILED
is emitted; handleFlowControl lines 291-309 do not call reportRequestStats). -/
theorem throttle_no_failed_report_counterexample :
    (runEvents [65] (initRun "frag" 10)
      [TEvent.data [1, 2] false, TEvent.data [3, 4] true]).session.status =
        TransferStatus.failed ∧
    (runEvents [65] (initRun "frag" 10)
      [TEvent.data [1, 2] false, TEvent.data [3, 4] true]).session.error =
        some "Transfer throttled too long" ∧
    (runEvents [65] (initRun "frag" 10)
      [TEvent.data [1, 2] false, TEvent.data [3, 4] true]).session.canceled = true ∧
    (runEvents [65] (initRun "frag" 10)
      [TEvent.data [1, 2] false, TEvent.data [3, 4] true]).inMap = false ∧
    RequestFragmentStatus.FAILED ∉
      (runEvents [65] (initRun "frag" 10)
        [TEvent.data [1, 2] false, TEvent.data [3, 4] true]).reports := by
  decide

/-- C5 as amended: when the back-pressure deadline (clamped to 1s..10s)
elapses before the buffer drains, the transfer is marked failed with error
"Transfer throttled too long", its canceled flag is set, no frame is sent
for that chunk, the session is removed from the transferSessions map and its
stream is closed, but no status is reported on this path, and the peer entry
itself survives the per-session cleanup. -/
theorem throttle_timeout_behavior (idBuf : List Nat) (st : RunState) (chunk : List Nat)
    (hc : st.session.canceled = false) :
    (stepEvent idBuf st (TEvent.data chunk true)).session.status = TransferStatus.failed ∧
    (stepEvent idBuf st (TEvent.data chunk true)).session.error =
      some "Transfer throttled too long" ∧
    (stepEvent idBuf st (TEvent.data chunk true)).session.canceled = true ∧
    (stepEvent idBuf st (TEvent.data chunk true)).inMap = false ∧
    (stepEvent idBuf st (TEvent.data chunk true)).session.streamOpen = false ∧
    (stepEvent idBuf st (TEvent.data chunk true)).frames = st.frames ∧
    (stepEvent idBuf st (TEvent.data chunk true)).reports = st.reports ∧
    (∀ (ms : MgrState) (cid sid : String),
      (cleanupTransferSession ms cid sid).peers.map Prod.fst = ms.peers.map Prod.fst) ∧
    (∀ b : ℚ, 1000 ≤ timeoutDurationMs b ∧ timeoutDurationMs b ≤ 10000) := by
  refine ⟨?_, ?_, ?_, ?_, ?_, ?_, ?_, cleanupTransferSession_keeps_peers, ?_⟩
  · simp [stepEvent, hc]
  · simp [stepEvent, hc]
  · simp [stepEvent, hc]
  · simp [stepEvent, hc]
  · simp [stepEvent, hc]
  · simp [stepEvent, hc]
  · simp [stepEvent, hc]
  · intro b
    constructor
    · exact le_min (by norm_num) (le_max_left 1000 (b / 1024))
    · exact min_le_left 10000 (max 1000 (b / 1024))

/-- Witness for the throttle-timeout theorem at a concrete state. -/
theorem throttle_timeout_behavior_witness :
    (stepEvent [65] (initRun "frag" 10) (TEvent.data [3, 4] true)).session.status =
      TransferStatus.failed ∧
    (stepEvent [65] (initRun "frag" 10) (TEvent.data [3, 4] true)).session.error =
      some "Transfer throttled too long" ∧
    (stepEvent [65] (initRun "frag" 10) (TEvent.data [3, 4] true)).session.canceled = true ∧
    (stepEvent [65] (initRun "frag" 10) (TEvent.data [3, 4] true)).inMap = false ∧
    (stepEvent [65] (initRun "frag" 10) (TEvent.data [3, 4] true)).session.streamOpen = false ∧
    (stepEvent [65] (initRun "frag" 10) (TEvent.data [3, 4] true)).frames =
      (initRun "frag" 10).frames ∧
    (stepEvent [65] (initRun "frag" 10) (TEvent.data [3, 4] true)).reports =
      (initRun "frag" 10).reports ∧
    (∀ (ms : MgrState) (cid sid : String),
      (cleanupTransferSession ms cid sid).peers.map Prod.fst = ms.peers.map Prod.fst) ∧
    (∀ b : ℚ, 1000 ≤ timeoutDurationMs b ∧ timeoutDurationMs b ≤ 10000) := by
  exact throttle_timeout_behavior [65] (initRun "frag" 10) [3, 4] rfl

/-- C4 evaluated at the failing input: with cumulative bytesSent counters
100, 150, 300 sampled at one-second intervals, the code publishes
100, 50, 250 while the per-interval rates are 100, 50, 150.  The bug: the
manager stores the published delta, not the cumulative counter, so from the
third sample on the subtraction baseline is wrong. -/
theorem stats_published_not_rate :
    reportedBytesSent 0 [100, 150, 300] = [100, 50, 250] ∧
    intervalDeltas 0 [100, 150, 300] = [100, 50, 150] ∧
    reportedBytesSent 0 [100, 150, 300] ≠ intervalDeltas 0 [100, 150, 300] := by
  decide

/-- C7: a READY_NODE request that passes the fragment and channel gates but
fails the resource gate (free RAM below 15 percent of total, or more than
10 MiB buffered) sends exactly one outbound CANCELED control frame, reports
LOW_MEMORY, registers no session and sends no data frames (streaming never
starts). -/
theorem resource_gate_cancels (inp : StartInput) (sessionId fragmentId : String)
    (hfrag : inp.fragmentFound = true) (hchan : inp.channelOpen = true)
    (hgate : inp.memAvailable / inp.memTotal * 100 < 15 ∨
      10 * 1024 * 1024 < inp.bufferedAmount) :
    (startTransfer inp sessionId fragmentId).controlMessages =
      [CtrlMessage.canceledMsg sessionId fragmentId "Node memory low, canceling transfer"] ∧
    (startTransfer inp sessionId fragmentId).reports =
      [RequestFragmentStatus.STARTING, RequestFragmentStatus.LOW_MEMORY] ∧
    (startTransfer inp sessionId fragmentId).startedStreaming = false ∧
    (startTransfer inp sessionId fragmentId).sessionRegistered = false := by
  have hcheck : checkSystemResources inp.memAvailable inp.memTotal inp.bufferedAmount = false := by
    simp only [checkSystemResources]
    rcases hgate with h | h
    · rw [if_pos (Or.inl h)]
    · rw [if_pos (Or.inr (by simpa using h))]
  simp [startTransfer, hfrag, hchan, hcheck]

/-- Witness for the resource gate: free RAM 10 of 100 (10 percent). -/
theorem resource_gate_cancels_witness :
    (startTransfer ⟨true, true, 10, 100, 0⟩ "s1" "f1").controlMessages =
      [CtrlMessage.canceledMsg "s1" "f1" "Node memory low, canceling transfer"] ∧
    (startTransfer ⟨true, true, 10, 100, 0⟩ "s1" "f1").reports =
      [RequestFragmentStatus.STARTING, RequestFragmentStatus.LOW_MEMORY] ∧
    (startTransfer ⟨true, true, 10, 100, 0⟩ "s1" "f1").startedStreaming = false ∧
    (startTransfer ⟨true, true, 10, 100, 0⟩ "s1" "f1").sessionRegistered = false := by
  exact resource_gate_cancels ⟨true, true, 10, 100, 0⟩ "s1" "f1" rfl rfl
    (Or.inl (by norm_num))

lemma verifyChunkLoop_eq (total : Nat) :
    ∀ (n : Nat) (rem : List FragmentHash), rem.length ≤ n → ∀ i : Nat,
    verifyChunkLoop total i rem =
      (List.range ((rem.length + 4) / 5)).map
        (fun k => VerifyEmit.hashVerify (i + 5 * k) total ((rem.drop (5 * k)).take 5)) := by
  intro n
  induction n with
  | zero =>
    intro rem h i
    have hrem : rem = [] := List.length_eq_zero.mp (Nat.le_zero.mp h)
    subst hrem
    simp [verifyChunkLoop]
  | succ m ih =>
    intro rem h i
    cases rem with
    | nil => simp [verifyChunkLoop]
    | cons x t =>
      rw [verifyChunkLoop]
      have hlen : ((x :: t).length + 4) / 5 = ((t.drop 4).length + 4) / 5 + 1 := by
        simp only [List.length_cons, List.length_drop]
        omega
      rw [hlen, List.range_succ_eq_map]
      simp only [List.map_cons, List.map_map]
      have hhead : VerifyEmit.hashVerify (i + 5 * 0) total (((x :: t).drop (5 * 0)).take 5) =
          VerifyEmit.hashVerify i total ((x :: t).take 5) := by
        norm_num
      rw [hhead]
      have htail := ih (t.drop 4) (by simp [List.length_drop] at h ⊢; omega) (i + 5)
      rw [htail]
      congr 1
      apply List.map_congr_left
      intro k _
      simp only [Function.comp_apply]
      have h1 : i + 5 + 5 * k = i + 5 * (k + 1) := by ring
      have h2 : (t.drop 4).drop (5 * k) = (x :: t).drop (5 * (k + 1)) := by
        rw [List.drop_drop]
        have h3 : (5 : Nat) * (k + 1) = (5 * k + 4) + 1 := by ring
        rw [h3, List.drop_succ_cons]
        congr 1
        omega
      rw [h1, h2]

lemma verifyChunkLoop_join (total : Nat) :
    ∀ (n : Nat) (rem : List FragmentHash), rem.length ≤ n → ∀ i : Nat,
    ((verifyChunkLoop total i rem).map resourcesOf).flatten = rem := by
  intro n
  induction n with
  | zero =>
    intro rem h i
    have hrem : rem = [] := List.length_eq_zero.mp (Nat.le_zero.mp h)
    subst hrem
    simp [verifyChunkLoop]
  | succ m ih =>
    intro rem h i
    cases rem with
    | nil => simp [verifyChunkLoop]
    | cons x t =>
      rw [verifyChunkLoop]
      simp only [List.map_cons, List.flatten_cons, resourcesOf]
      rw [ih (t.drop 4) (by simp [List.length_drop] at h ⊢; omega) (i + 5)]
      show (x :: t).take 5 ++ (x :: t).drop 5 = x :: t
      exact List.take_append_drop 5 (x :: t)

/-- C8: at startup, an empty fragment index emits exactly one hash_empty
event and no hash_verify events; a nonempty index is hashed into an id/hash
list of the same length, partitioned into consecutive chunks of at most 5
nonempty entries, and emitted as one hash_verify per chunk whose index is
the position of the first entry of that chunk in the full list (5k for the
k-th chunk) and whose total is the chunk count (n + 4) / 5 = ceil(n / 5);
the chunk resources concatenate back to the full id/hash list. -/
theorem verify_fragment_chunking (basenameOf : String → String)
    (hashOf : String → Option String) (paths : List String) :
    (paths = [] → verifyFragmentMap basenameOf hashOf paths = [VerifyEmit.hashEmpty]) ∧
    (paths ≠ [] →
      (hashFiles basenameOf hashOf paths).length = paths.length ∧
      verifyFragmentMap basenameOf hashOf paths =
        (List.range ((paths.length + 4) / 5)).map
          (fun k => VerifyEmit.hashVerify (5 * k) ((paths.length + 4) / 5)
            (((hashFiles basenameOf hashOf paths).drop (5 * k)).take 5)) ∧
      ((verifyFragmentMap basenameOf hashOf paths).map resourcesOf).flatten =
        hashFiles basenameOf hashOf paths ∧
      (∀ k, k < (paths.length + 4) / 5 →
        (((hashFiles basenameOf hashOf paths).drop (5 * k)).take 5).length ≤ 5 ∧
        ((hashFiles basenameOf hashOf paths).drop (5 * k)).take 5 ≠ [])) := by
  have hlen : (hashFiles basenameOf hashOf paths).length = paths.length := by
    simp [hashFiles]
  constructor
  · intro h
    subst h
    simp [verifyFragmentMap, hashFiles]
  · intro hne
    have hpos : paths.length ≠ 0 := by
      intro h0
      exact hne (List.length_eq_zero.mp h0)
    have hmap : verifyFragmentMap basenameOf hashOf paths =
        verifyChunkLoop ((paths.length + 4) / 5) 0 (hashFiles basenameOf hashOf paths) := by
      rw [verifyFragmentMap, if_neg hpos, hlen]
    refine ⟨hlen, ?_, ?_, ?_⟩
    · rw [hmap, verifyChunkLoop_eq ((paths.length + 4) / 5)
        (hashFiles basenameOf hashOf paths).length (hashFiles basenameOf hashOf paths)
        le_rfl 0, hlen]
      apply List.map_congr_left
      intro k _
      rw [Nat.zero_add]
    · rw [hmap]
      exact verifyChunkLoop_join ((paths.length + 4) / 5)
        (hashFiles basenameOf hashOf paths).length (hashFiles basenameOf hashOf paths)
        le_rfl 0
    · intro k hk
      constructor
      · exact List.length_take_le 5 _
      · have hdroplen : ((hashFiles basenameOf hashOf paths).drop (5 * k)).length =
            paths.length - 5 * k := by
          simp [List.length_drop, hlen]
        have h5k : 5 * k < paths.length := by omega
        intro hnil
        have hzero : (((hashFiles basenameOf hashOf paths).drop (5 * k)).take 5).length = 0 := by
          rw [hnil]; rfl
        rw [List.length_take, hdroplen] at hzero
        omega

/-- Witness for the verification chunking: six fragments hash to six entries
emitted as two chunks with indexes 0 and 5 and total 2. -/
theorem verify_fragment_chunking_witness :
    ((["a", "b", "c", "d", "e", "f"] : List String) = [] →
      verifyFragmentMap (fun p => p) (fun _ => some "h") ["a", "b", "c", "d", "e", "f"] =
        [VerifyEmit.hashEmpty]) ∧
    ((["a", "b", "c", "d", "e", "f"] : List String) ≠ [] →
      (hashFiles (fun p => p) (fun _ => some "h") ["a", "b", "c", "d", "e", "f"]).length =
        (["a", "b", "c", "d", "e", "f"] : List String).length ∧
      verifyFragmentMap (fun p => p) (fun _ => some "h") ["a", "b", "c", "d", "e", "f"] =
        (List.range (((["a", "b", "c", "d", "e", "f"] : List String).length + 4) / 5)).map
          (fun k => VerifyEmit.hashVerify (5 * k)
            (((["a", "b", "c", "d", "e", "f"] : List String).length + 4) / 5)
            (((hashFiles (fun p => p) (fun _ => some "h")
              ["a", "b", "c", "d", "e", "f"]).drop (5 * k)).take 5)) ∧
      ((verifyFragmentMap (fun p => p) (fun _ => some "h")
          ["a", "b", "c", "d", "e", "f"]).map resourcesOf).flatten =
        hashFiles (fun p => p) (fun _ => some "h") ["a", "b", "c", "d", "e", "f"] ∧
      (∀ k, k < ((["a", "b", "c", "d", "e", "f"] : List String).length + 4) / 5 →
        (((hashFiles (fun p => p) (fun _ => some "h")
            ["a", "b", "c", "d", "e", "f"]).drop (5 * k)).take 5).length ≤ 5 ∧
        ((hashFiles (fun p => p) (fun _ => some "h")
            ["a", "b", "c", "d", "e", "f"]).drop (5 * k)).take 5 ≠ [])) := by
  exact verify_fragment_chunking (fun p => p) (fun _ => some "h") ["a", "b", "c", "d", "e", "f"]

lemma alookup_eq_none_iff {α : Type} (l : List (String × α)) (k : String) :
    alookup l k = none ↔ ∀ e ∈ l, e.1 ≠ k := by
  induction l with
  | nil => simp [alookup]
  | cons x r ih =>
    simp only [alookup, List.mem_cons]
    by_cases hx : x.1 = k
    · rw [if_pos hx]
      constructor
      · intro h; cases h
      · intro h
        exact absurd hx (h x (Or.inl rfl))
    · rw [if_neg hx, ih]
      constructor
      · intro h e he
        rcases he with he | he
        · subst he; exact hx
        · exact h e he
      · intro h e he
        exact h e (Or.inr he)

lemma alookup_mem {α : Type} (l : List (String × α)) (k : String) (v : α)
    (h : alookup l k = some v) : (k, v) ∈ l := by
  induction l with
  | nil => simp [alookup] at h
  | cons x r ih =>
    simp only [alookup] at h
    by_cases hx : x.1 = k
    · rw [if_pos hx] at h
      cases h
      cases x with
      | mk a b =>
        obtain rfl : a = k := hx
        exact List.mem_cons_self _ _
    · rw [if_neg hx] at h
      exact List.mem_cons_of_mem x (ih h)

lemma alookup_of_mem_nodup {α : Type} (l : List (String × α)) (k : String) (v : α)
    (hmem : (k, v) ∈ l) (hnd : (l.map Prod.fst).Nodup) : alookup l k = some v := by
  induction l with
  | nil => simp at hmem
  | cons x r ih =>
    simp only [List.map_cons, List.nodup_cons] at hnd
    rcases List.mem_cons.mp hmem with he | he
    · subst he
      simp [alookup]
    · have hx : x.1 ≠ k := by
        intro h0
        exact hnd.1 (h0 ▸ List.mem_map_of_mem Prod.fst he)
      simp only [alookup, if_neg hx]
      exact ih he hnd.2

lemma mem_filter_ne {α : Type} (l : List (String × α)) (fid : String) (e : String × α) :
    e ∈ l.filter (fun e => !(e.1 == fid)) ↔ e ∈ l ∧ e.1 ≠ fid := by
  rw [List.mem_filter]
  simp

lemma collectDelete_index_mem :
    ∀ (ids : List String) (index : List (String × String)) (e : String × String),
    e ∈ (collectDelete index ids).1 ↔ e ∈ index ∧ e.1 ∉ ids := by
  intro ids
  induction ids with
  | nil => intro index e; simp [collectDelete]
  | cons fid rest ih =>
    intro index e
    simp only [collectDelete]
    cases hl : alookup index fid with
    | some p =>
      simp only []
      rw [ih, mem_filter_ne]
      simp only [List.mem_cons, not_or]
      tauto
    | none =>
      simp only []
      rw [ih]
      have hno := (alookup_eq_none_iff index fid).mp hl
      simp only [List.mem_cons, not_or]
      constructor
      · intro ⟨h1, h2⟩
        exact ⟨h1, hno e h1, h2⟩
      · intro ⟨h1, _, h3⟩
        exact ⟨h1, h3⟩

lemma collectDelete_paths_mem :
    ∀ (ids : List String) (index : List (String × String)) (p : String),
    p ∈ (collectDelete index ids).2.1 → ∃ fid, fid ∈ ids ∧ (fid, p) ∈ index := by
  intro ids
  induction ids with
  | nil => intro index p h; simp [collectDelete] at h
  | cons fid rest ih =>
    intro index p h
    simp only [collectDelete] at h
    cases hl : alookup index fid with
    | some q =>
      rw [hl] at h
      simp only [List.mem_cons] at h
      rcases h with h | h
      · exact ⟨fid, by simp, by rw [h]; exact alookup_mem index fid q hl⟩
      · obtain ⟨fid2, hfid2, hmem⟩ := ih _ p h
        exact ⟨fid2, by simp [hfid2], ((mem_filter_ne index fid _).mp hmem).1⟩
    | none =>
      rw [hl] at h
      obtain ⟨fid2, hfid2, hmem⟩ := ih _ p h
      exact ⟨fid2, by simp [hfid2], hmem⟩

lemma collectDelete_paths_complete :
    ∀ (ids : List String) (index : List (String × String)) (fid : String) (p : String),
    (fid, p) ∈ index → fid ∈ ids → (index.map Prod.fst).Nodup →
    p ∈ (collectDelete index ids).2.1 := by
  intro ids
  induction ids with
  | nil => intro index fid p _ hin _; simp at hin
  | cons x rest ih =>
    intro index fid p hmem hin hnd
    simp only [collectDelete]
    by_cases hx : x = fid
    · subst hx
      rw [alookup_of_mem_nodup index x p hmem hnd]
      simp
    · cases hl : alookup index x with
      | some q =>
        simp only [List.mem_cons]
        right
        apply ih _ fid p
        · rw [mem_filter_ne]
          exact ⟨hmem, by simpa using (fun h => hx h.symm)⟩
        · rcases List.mem_cons.mp hin with h | h
          · exact absurd h.symm hx
          · exact h
        · have : (index.filter fun e => !(e.1 == x)).Sublist index := List.filter_sublist index
          exact ((this.map Prod.fst).nodup hnd)
      | none =>
        apply ih index fid p hmem _ hnd
        rcases List.mem_cons.mp hin with h | h
        · exact absurd h.symm hx
        · exact h

lemma collectDelete_warnings :
    ∀ (ids : List String) (index : List (String × String)) (fid : String),
    fid ∈ ids → alookup index fid = none → fid ∈ (collectDelete index ids).2.2 := by
  intro ids
  induction ids with
  | nil => intro index fid h _; simp at h
  | cons x rest ih =>
    intro index fid hin hnone
    simp only [collectDelete]
    by_cases hx : x = fid
    · subst hx
      rw [hnone]
      simp
    · have hin2 : fid ∈ rest := by
        rcases List.mem_cons.mp hin with h | h
        · exact absurd h.symm hx
        · exact h
      cases hl : alookup index x with
      | some q =>
        have hnone2 : alookup (index.filter fun e => !(e.1 == x)) fid = none := by
          rw [alookup_eq_none_iff]
          intro e he
          exact (alookup_eq_none_iff index fid).mp hnone e ((mem_filter_ne index x e).mp he).1
        exact ih _ fid hin2 hnone2
      | none =>
        exact List.mem_cons_of_mem x (ih index fid hin2 hnone)

lemma deleteFiles_not_mem_start :
    ∀ (paths : List String) (disk : List String) (q : String),
    q ∉ disk → q ∉ deleteFiles disk paths := by
  intro paths
  induction paths with
  | nil => intro disk q h; exact h
  | cons p rest ih =>
    intro disk q h
    simp only [deleteFiles, List.foldl_cons]
    apply ih
    by_cases hp : p ∈ disk
    · rw [if_pos hp]
      intro hq
      exact h (List.mem_of_mem_filter hq)
    · rw [if_neg hp]
      exact h

lemma deleteFiles_removes :
    ∀ (paths : List String) (disk : List String) (p : String),
    p ∈ paths → p ∉ deleteFiles disk paths := by
  intro paths
  induction paths with
  | nil => intro disk p h; simp at h
  | cons x rest ih =>
    intro disk p hp
    simp only [deleteFiles, List.foldl_cons]
    rcases List.mem_cons.mp hp with hp | hp
    · subst hp
      apply deleteFiles_not_mem_start
      by_cases hx : p ∈ disk
      · rw [if_pos hx]
        intro hq
        have := List.of_mem_filter hq
        simp at this
      · rw [if_neg hx]
        exact hx
    · exact ih _ p hp

lemma deleteFiles_keeps :
    ∀ (paths : List String) (disk : List String) (q : String),
    q ∉ paths → (q ∈ deleteFiles disk paths ↔ q ∈ disk) := by
  intro paths
  induction paths with
  | nil => intro disk q _; simp [deleteFiles]
  | cons x rest ih =>
    intro disk q hq
    simp only [List.mem_cons, not_or] at hq
    have hstep : deleteFiles disk (x :: rest) =
        deleteFiles (if x ∈ disk then disk.filter (fun q => !(q == x)) else disk) rest := rfl
    rw [hstep, ih _ q hq.2]
    by_cases hx : x ∈ disk
    · rw [if_pos hx, List.mem_filter]
      constructor
      · intro h; exact h.1
      · intro h
        refine ⟨h, ?_⟩
        simp [hq.1]
    · rw [if_neg hx]

/-- C9: for every delete command, every listed id that is present in the
fragment index has its entry removed and its file unlinked; every listed id
that is absent is recorded as a warning while the remaining ids are still
processed (the command is a total function and never fails); entries not
listed survive untouched; and afterwards every id remaining in the index
still refers to an existing file.  The hypotheses state the standing index
invariants: ids are unique, two entries never share a path (each path ends
in its own id), and before the command every entry refers to an existing
file. -/
theorem handleDelete_correct (index : List (String × String)) (disk : List String)
    (fragmentIds : List String)
    (hNodup : (index.map Prod.fst).Nodup)
    (hInj : ∀ e ∈ index, ∀ f ∈ index, e.2 = f.2 → e.1 = f.1)
    (hAgree : ∀ e ∈ index, e.2 ∈ disk) :
    (∀ id p, (id, p) ∈ index → id ∈ fragmentIds →
      (∀ e ∈ (handleDelete index disk fragmentIds).index, e.1 ≠ id) ∧
      p ∉ (handleDelete index disk fragmentIds).disk) ∧
    (∀ e ∈ index, e.1 ∉ fragmentIds → e ∈ (handleDelete index disk fragmentIds).index) ∧
    (∀ id ∈ fragmentIds, alookup index id = none →
      id ∈ (handleDelete index disk fragmentIds).warnings) ∧
    (∀ e ∈ (handleDelete index disk fragmentIds).index,
      e.2 ∈ (handleDelete index disk fragmentIds).disk) := by
  refine ⟨?_, ?_, ?_, ?_⟩
  · intro id p hmem hin
    constructor
    · intro e he
      have := (collectDelete_index_mem fragmentIds index e).mp he
      intro h0
      exact this.2 (h0 ▸ hin)
    · exact deleteFiles_removes _ disk p
        (collectDelete_paths_complete fragmentIds index id p hmem hin hNodup)
  · intro e hmem hnot
    exact (collectDelete_index_mem fragmentIds index e).mpr ⟨hmem, hnot⟩
  · intro id hin hnone
    exact collectDelete_warnings fragmentIds index id hin hnone
  · intro e he
    have hmem := (collectDelete_index_mem fragmentIds index e).mp he
    have hdisk : e.2 ∈ disk := hAgree e hmem.1
    have hnotpath : e.2 ∉ (collectDelete index fragmentIds).2.1 := by
      intro hp
      obtain ⟨fid, hfid, hfmem⟩ := collectDelete_paths_mem fragmentIds index e.2 hp
      have : e.1 = fid := hInj e hmem.1 (fid, e.2) hfmem rfl
      exact hmem.2 (this ▸ hfid)
    exact (deleteFiles_keeps _ disk e.2 hnotpath).mpr hdisk

/-- Witness for the delete command: index a to /a and b to /b, disk holding
both files, deleting a present id a and an absent id x. -/
theorem handleDelete_correct_witness :
    (∀ id p, (id, p) ∈ [("a", "/a"), ("b", "/b")] → id ∈ ["a", "x"] →
      (∀ e ∈ (handleDelete [("a", "/a"), ("b", "/b")] ["/a", "/b"] ["a", "x"]).index,
        e.1 ≠ id) ∧
      p ∉ (handleDelete [("a", "/a"), ("b", "/b")] ["/a", "/b"] ["a", "x"]).disk) ∧
    (∀ e ∈ [("a", "/a"), ("b", "/b")], e.1 ∉ ["a", "x"] →
      e ∈ (handleDelete [("a", "/a"), ("b", "/b")] ["/a", "/b"] ["a", "x"]).index) ∧
    (∀ id ∈ ["a", "x"], alookup [("a", "/a"), ("b", "/b")] id = none →
      id ∈ (handleDelete [("a", "/a"), ("b", "/b")] ["/a", "/b"] ["a", "x"]).warnings) ∧
    (∀ e ∈ (handleDelete [("a", "/a"), ("b", "/b")] ["/a", "/b"] ["a", "x"]).index,
      e.2 ∈ (handleDelete [("a", "/a"), ("b", "/b")] ["/a", "/b"] ["a", "x"]).disk) := by
  exact handleDelete_correct [("a", "/a"), ("b", "/b")] ["/a", "/b"] ["a", "x"]
    (by decide) (by decide) (by decide)

/-- C10: classifyIp maps every string that is not a valid IPv4 or IPv6
literal (isIP returns 0) to version unknown and type unknown; being a total
function it never throws, and it never classifies such a string as private
or public. -/
theorem classify_non_ip_unknown (s : String) (h : isIP s = 0) :
    classifyIp s = ⟨IpVersion.unknown, IpKind.unknown⟩ ∧
    (classifyIp s).type ≠ IpKind.priv ∧ (classifyIp s).type ≠ IpKind.pub := by
  have hcls : classifyIp s = ⟨IpVersion.unknown, IpKind.unknown⟩ := by
    simp [classifyIp, h]
  refine ⟨hcls, ?_, ?_⟩ <;> rw [hcls] <;> intro h0 <;> cases h0

/-- Witness for the classifier at a concrete non-IP string. -/
theorem classify_non_ip_unknown_witness :
    classifyIp "hello.world" = ⟨IpVersion.unknown, IpKind.unknown⟩ ∧
    (classifyIp "hello.world").type ≠ IpKind.priv ∧
    (classifyIp "hello.world").type ≠ IpKind.pub := by
  exact classify_non_ip_unknown "hello.world" (by decide)

end P2P

